import Mathlib

/-!
# Verification of the SpeedTestAnalysis pipeline (src/analysis.py)

Shallow embedding of the data-preparation, aggregation, chart-composition,
report-generation, HTML post-processing and index-generation functions of
`analysis.py`, together with theorems settling the specification claims.

Modelling conventions:
* Timestamps are epoch seconds (`Nat`).  `pytz.timezone('Asia/Tokyo')` is a
  fixed UTC+9 offset in the modern era (Japan observes no DST), so
  `tz_convert` is addition of the offset.
* Rates are rationals (`ℚ`); pandas column arithmetic becomes arithmetic on
  the per-row values.
* A pandas DataFrame of prepared rows is a `List Record`; `groupby` + `agg`
  is grouping by the key triple with order of first occurrence, and
  `sort_values` is a stable sort by the requested columns.
* The CSV layer is a lookup from path to already-parsed rows (the parser is
  an external collaborator); `print` + `exit()` on a missing file is the
  `missingInputError` outcome of an `Except`.
-/

/-- One raw CSV row: `StartedAt` (epoch seconds, UTC), `DownloadedSpeed` and
`UploadedSpeed` (raw bytes per second). -/
structure RawRow where
  startedAt : Nat
  downloadedSpeed : ℚ
  uploadedSpeed : ℚ
deriving DecidableEq

/-- `Asia/Tokyo` as a fixed UTC+9 offset, in seconds. -/
def jstUtcOffsetSeconds : Nat := 9 * 3600

def secondsPerDay : Nat := 86400

/-- Calendar day number of an epoch-second instant (1970-01-01 is day 0). -/
def dayNumber (e : Nat) : Nat := e / secondsPerDay

/-- pandas `dt.dayofweek`: Monday = 0.  1970-01-01 (day 0) was a Thursday,
hence the offset 3. -/
def dayOfWeek (e : Nat) : Nat := (dayNumber e + 3) % 7

/-- pandas `dt.hour` of an epoch-second instant. -/
def hourOfDay (e : Nat) : Nat := e % secondsPerDay / 3600

/-- The `weekday_map` dictionary `{0:'月',…,6:'日'}` of `load_and_prepare_data`
(out-of-range keys never occur for a `dayofweek` value). -/
def weekday_map (n : Nat) : String :=
  match n with
  | 0 => "月"
  | 1 => "火"
  | 2 => "水"
  | 3 => "木"
  | 4 => "金"
  | 5 => "土"
  | 6 => "日"
  | _ => ""

/-- One row of `prepared_df`: columns `StartedAt_JST`, `曜日` (weekday label),
`曜日番号` (weekday index), `時間` (hour), `DownloadedMbps`, `UploadedMbps`. -/
structure Record where
  startedAtJst : Nat
  weekday_label : String
  weekday_index : Nat
  hour : Nat
  downloadedMbps : ℚ
  uploadedMbps : ℚ
deriving DecidableEq

/-- The per-row computation of `load_and_prepare_data`: convert `StartedAt`
to JST, derive weekday index/label and hour from the JST instant, and scale
the raw byte rates by `/ 1000 / 1000`. -/
def prepareRow (row : RawRow) : Record :=
  let jst := row.startedAt + jstUtcOffsetSeconds
  { startedAtJst := jst
    weekday_label := weekday_map (dayOfWeek jst)
    weekday_index := dayOfWeek jst
    hour := hourOfDay jst
    downloadedMbps := row.downloadedSpeed / 1000 / 1000
    uploadedMbps := row.uploadedSpeed / 1000 / 1000 }

/-- Pipeline failures.  `missingInputError` models the `FileNotFoundError`
branch of `load_and_prepare_data` (message + `exit()`). -/
inductive PipelineError where
  | missingInputError
deriving DecidableEq

/-- The input side of the file system: CSV files as already-parsed row lists
(CSV parsing itself is the external `pd.read_csv` collaborator). -/
def FileSystem : Type := List (String × List RawRow)

/-- Look a path up in the input file system. -/
def lookupFile (fs : FileSystem) (path : String) : Option (List RawRow) :=
  match fs with
  | [] => none
  | (p, rows) :: rest => if p = path then some rows else lookupFile rest path

/-- `load_and_prepare_data`: read the CSV at `file_path` (failing if absent)
and apply the per-row preparation. -/
def load_and_prepare_data (fs : FileSystem) (file_path : String) :
    Except PipelineError (List Record) :=
  match lookupFile fs file_path with
  | none => Except.error PipelineError.missingInputError
  | some rows => Except.ok (rows.map prepareRow)

/-- The per-row column `箱ひげキー` (and also the box-trace x value):
`曜日 + '-' + 時間.astype(str)`. -/
def rowBoxKey (r : Record) : String :=
  r.weekday_label ++ "-" ++ toString r.hour

/-- The `groupby` key triple `(曜日, 時間, 曜日番号)` of `calculate_medians`. -/
abbrev GroupKey : Type := String × Nat × Nat

def groupKeyOf (r : Record) : GroupKey :=
  (r.weekday_label, r.hour, r.weekday_index)

/-- The rows of one `groupby` group, in original row order. -/
def groupRows (rs : List Record) (k : GroupKey) : List Record :=
  rs.filter fun r => decide (groupKeyOf r = k)

/-- The ascending sort of a list of rates. -/
def sortedRates (l : List ℚ) : List ℚ :=
  List.insertionSort (fun a b : ℚ => a ≤ b) l

/-- pandas `median`: sort the values; the middle one for odd counts, the
average of the two middle ones for even counts (junk value `0` on `[]`,
which pandas renders as `NaN`; never reached through grouping). -/
def median (l : List ℚ) : ℚ :=
  if (sortedRates l).length % 2 = 1 then
    (sortedRates l).getD ((sortedRates l).length / 2) 0
  else
    ((sortedRates l).getD ((sortedRates l).length / 2 - 1) 0 +
      (sortedRates l).getD ((sortedRates l).length / 2) 0) / 2

/-- One row of `median_df`: the group key columns, the two median columns and
the `first`-aggregated `箱ひげキー` column. -/
structure Bucket where
  weekday_label : String
  hour : Nat
  weekday_index : Nat
  downloadedMbps : ℚ
  uploadedMbps : ℚ
  boxKey : String
deriving DecidableEq

/-- The `sort_values(by=['曜日番号', '時間'])` comparison on group keys. -/
def bucketLE (a b : GroupKey) : Prop :=
  a.2.2 < b.2.2 ∨ (a.2.2 = b.2.2 ∧ a.2.1 ≤ b.2.1)

instance : DecidableRel bucketLE := fun a b => by
  unfold bucketLE; infer_instance

instance : IsTotal GroupKey bucketLE :=
  ⟨fun a b => by unfold bucketLE; omega⟩

instance : IsTrans GroupKey bucketLE :=
  ⟨fun a b c => by unfold bucketLE; omega⟩

def emptyString : String := ""

/-- Aggregate one `groupby` group: `median` of both rate columns and `first`
of the `箱ひげキー` column (the `headD` default is never reached: groups are
non-empty by construction). -/
def mkBucket (rs : List Record) (k : GroupKey) : Bucket :=
  let g := groupRows rs k
  { weekday_label := k.1
    hour := k.2.1
    weekday_index := k.2.2
    downloadedMbps := median (g.map Record.downloadedMbps)
    uploadedMbps := median (g.map Record.uploadedMbps)
    boxKey := (g.map rowBoxKey).headD emptyString }

/-- `calculate_medians`: group the prepared rows by `(曜日, 時間, 曜日番号)`,
aggregate each group, and sort the resulting rows by `(曜日番号, 時間)`. -/
def calculate_medians (new_df : List Record) : List Bucket :=
  (List.insertionSort bucketLE ((new_df.map groupKeyOf).dedup)).map (mkBucket new_df)

/-- The `sort_values(by=['曜日番号', '時間'])` comparison on prepared rows
used by `add_box_plot_traces`. -/
def recordLE (a b : Record) : Prop :=
  a.weekday_index < b.weekday_index ∨
    (a.weekday_index = b.weekday_index ∧ a.hour ≤ b.hour)

instance : DecidableRel recordLE := fun a b => by
  unfold recordLE; infer_instance

instance : IsTotal Record recordLE :=
  ⟨fun a b => by unfold recordLE; omega⟩

instance : IsTrans Record recordLE :=
  ⟨fun a b c => by unfold recordLE; omega⟩

/-- A `go.Box` trace: the `y`, `x` and `name` arguments (colour and
`boxmean` styling omitted — pure presentation). -/
structure BoxTrace where
  y : List ℚ
  x : List String
  name : String
deriving DecidableEq

/-- A `go.Scatter` trace: the `x`, `y` and `name` arguments. -/
structure ScatterTrace where
  x : List String
  y : List ℚ
  name : String
deriving DecidableEq

/-- A `go.Figure`: the box traces, the scatter traces and the layout title
(axis titles and `boxmode='group'` are fixed layout constants). -/
structure Figure where
  boxes : List BoxTrace
  scatters : List ScatterTrace
  title : String
deriving DecidableEq

def downloadName : String := "Download"

def uploadName : String := "Upload"

def downloadMedianName : String := "Download Median"

def uploadMedianName : String := "Upload Median"

/-- `add_box_plot_traces`: sort the prepared rows by `(曜日番号, 時間)` and
emit one box trace per metric, with x categories
`曜日.astype(str) + '-' + 時間.astype(str)` (the weekday column is already a
string, so `astype(str)` is the identity on it). -/
def add_box_plot_traces (prepared_df : List Record) : List BoxTrace :=
  let sorted_df := List.insertionSort recordLE prepared_df
  [{ y := sorted_df.map Record.downloadedMbps
     x := sorted_df.map rowBoxKey
     name := downloadName },
   { y := sorted_df.map Record.uploadedMbps
     x := sorted_df.map rowBoxKey
     name := uploadName }]

/-- `add_line_plot_traces`: one scatter trace per metric over `median_df`,
with x values the aggregated `箱ひげキー` column. -/
def add_line_plot_traces (prepared_df : List Record) : List ScatterTrace :=
  let median_df := calculate_medians prepared_df
  [{ x := median_df.map Bucket.boxKey
     y := median_df.map Bucket.downloadedMbps
     name := downloadMedianName },
   { x := median_df.map Bucket.boxKey
     y := median_df.map Bucket.uploadedMbps
     name := uploadMedianName }]

/-- `plot_graph`: an empty figure plus box traces, line traces and the
layout update. -/
def plot_graph (prepared_df : List Record) (title : String) : Figure :=
  { boxes := add_box_plot_traces prepared_df
    scatters := add_line_plot_traces prepared_df
    title := title }

/-- The output side of the file system: directories created so far and the
figures written as HTML pages (the plotly HTML export engine is an external
collaborator, so a written page is identified with its figure). -/
structure OutFS where
  dirs : List String
  pages : List (String × Figure)
deriving DecidableEq

def slashSep : String := "/"

def dotdot : String := ".."

def curdir : String := "."

/-- `str.split('/')` on the character list of a path, with `acc` the
reversed characters of the component currently being read. -/
def splitOnSlash : List Char → List Char → List String
  | [], acc => [String.mk acc.reverse]
  | c :: rest, acc =>
    if c = '/' then String.mk acc.reverse :: splitOnSlash rest []
    else splitOnSlash rest (c :: acc)

/-- Path components of a `/`-separated path (empty components dropped, as
`os.path` normalization does for duplicate separators). -/
def splitPath (p : String) : List String :=
  (splitOnSlash p.data []).filter fun s => decide (s ≠ "")

/-- `os.path.dirname` on component lists: everything before the last
component. -/
def dirnameC (p : List String) : List String := p.dropLast

/-- `os.path.dirname` on `/`-separated strings. -/
def dirname (p : String) : String :=
  String.intercalate slashSep (dirnameC (splitPath p))

/-- `save_as_html`: `os.makedirs(os.path.dirname(file_path), exist_ok=True)`
then `fig.write_html(file_path, ...)`. -/
def save_as_html (out : OutFS) (fig : Figure) (file_path : String) : OutFS :=
  { dirs := dirname file_path :: out.dirs
    pages := (file_path, fig) :: out.pages }

/-- `generate_graph_html`: load and prepare the CSV (stopping on a missing
file before anything is rendered or written), plot the figure and save it.
The `add_japanese_metadata` step rewrites the written document's text; it is
modelled separately at the document-text level below, since here a written
page is identified with its figure. -/
def generate_graph_html (fs : FileSystem) (out : OutFS)
    (csv_file_path html_file_path : String) (title : String) :
    Except PipelineError OutFS :=
  match load_and_prepare_data fs csv_file_path with
  | Except.error e => Except.error e
  | Except.ok prepared_df =>
      Except.ok (save_as_html out (plot_graph prepared_df title) html_file_path)

/-- Length of the longest common prefix of two component lists
(`os.path.commonprefix` on split paths). -/
def commonPrefixLen : List String → List String → Nat
  | a :: as, b :: bs => if a = b then commonPrefixLen as bs + 1 else 0
  | _, _ => 0

/-- `os.path.relpath` on component lists: climb with `..` out of the part of
`start` beyond the common prefix, then descend into the part of `path`
beyond it; `.` when the two coincide.  (Python first makes both paths
absolute against the working directory; for `..`-free relative inputs that
common absolute prefix cancels and the result is this component
computation.) -/
def relpathC (path start : List String) : List String :=
  let c := commonPrefixLen path start
  let rel := List.replicate (start.length - c) dotdot ++ path.drop c
  if rel.isEmpty then [curdir] else rel

/-- `os.path.relpath` on `/`-separated strings. -/
def relpath (path start : String) : String :=
  String.intercalate slashSep (relpathC (splitPath path) (splitPath start))

/-- The navigation document `generate_index_html` writes: two hrefs and two
link captions (the surrounding HTML template is fixed text). -/
structure IndexDoc where
  pastHref : String
  latestHref : String
  pastTitle : String
  latestTitle : String
deriving DecidableEq

/-- `generate_index_html`: each link's href is the artifact path relative to
the index document's own directory,
`os.path.relpath(..., start=os.path.dirname(html_file_path))`. -/
def generate_index_html (html_file_path past_html_path latest_html_path : String)
    (past_title latest_title : String) : IndexDoc :=
  { pastHref := relpath past_html_path (dirname html_file_path)
    latestHref := relpath latest_html_path (dirname html_file_path)
    pastTitle := past_title
    latestTitle := latest_title }

/-- Resolution of a relative path against a base directory (`..` climbs,
`.` stays): the sense in which an `os.path.relpath` result points back at
the original target.  Spec-side notion used to state relocatability. -/
def resolvePath (base rel : List String) : List String :=
  rel.foldl
    (fun acc comp =>
      if comp = dotdot then acc.dropLast
      else if comp = curdir then acc
      else acc ++ [comp])
    base

/-- The closing head-section marker `'</head>'`, as a character list. -/
def headMarker : List Char := "</head>".toList

/-- The `new_meta_tags` string of `add_japanese_metadata`, as a character
list. -/
def new_meta_tags : List Char :=
  "\n<meta name=\"language\" content=\"ja\" />\n<meta http-equiv=\"Content-Language\" content=\"ja\" />\n".toList

/-- Python `str.replace(old, new, 1)`: replace the first occurrence of
`pat` (scanning left to right), leave everything else unchanged; the
original content when there is no occurrence. -/
def replaceFirst : List Char → List Char → List Char → List Char
  | [], _, _ => []
  | c :: rest, pat, repl =>
    if pat.isPrefixOf (c :: rest) then repl ++ (c :: rest).drop pat.length
    else c :: replaceFirst rest pat repl

/-- Index of the first occurrence of `pat` in `s`, if any (specification
device for stating where `replaceFirst` acts). -/
def findFirstIdx : List Char → List Char → Option Nat
  | [], pat => if pat.isEmpty then some 0 else none
  | c :: rest, pat =>
    if pat.isPrefixOf (c :: rest) then some 0
    else (findFirstIdx rest pat).map (· + 1)

/-- The text transformation of `add_japanese_metadata`:
`html_content.replace('</head>', new_meta_tags + '</head>', 1)` (the
enclosing read and write-back are byte-faithful I/O). -/
def add_japanese_metadata (html_content : List Char) : List Char :=
  replaceFirst html_content headMarker (new_meta_tags ++ headMarker)

/-- Constituent-rate list of a bucket's download metric: the prepared rows
sharing the bucket's `(weekday_index, hour)` combination. -/
def bucketDownloadRates (rs : List Record) (b : Bucket) : List ℚ :=
  (rs.filter fun r =>
    decide (r.weekday_index = b.weekday_index ∧ r.hour = b.hour)).map
    Record.downloadedMbps

/-- Constituent-rate list of a bucket's upload metric. -/
def bucketUploadRates (rs : List Record) (b : Bucket) : List ℚ :=
  (rs.filter fun r =>
    decide (r.weekday_index = b.weekday_index ∧ r.hour = b.hour)).map
    Record.uploadedMbps

/-- Prepared rows are well-formed: the weekday label column is the
`weekday_map` image of the weekday index column, as `load_and_prepare_data`
constructs it. -/
def wellFormed (rs : List Record) : Prop :=
  ∀ r ∈ rs, r.weekday_label = weekday_map r.weekday_index

/-- Concrete prepared rows used by the closed evaluation witnesses: two
buckets, presented out of canonical order, with odd-size groups. -/
def exRecords : List Record :=
  [{ startedAtJst := 0, weekday_label := weekday_map 3, weekday_index := 3
     hour := 9, downloadedMbps := 2, uploadedMbps := 1 },
   { startedAtJst := 90, weekday_label := weekday_map 1, weekday_index := 1
     hour := 5, downloadedMbps := 7, uploadedMbps := 6 },
   { startedAtJst := 50, weekday_label := weekday_map 3, weekday_index := 3
     hour := 9, downloadedMbps := 7, uploadedMbps := 5 },
   { startedAtJst := 70, weekday_label := weekday_map 3, weekday_index := 3
     hour := 9, downloadedMbps := 4, uploadedMbps := 3 }]

def exEmptyBoxTrace : BoxTrace :=
  { y := [], x := [], name := "" }

/-- The distribution trace of the download metric over `exRecords`. -/
def exDownloadBoxTrace : BoxTrace :=
  (add_box_plot_traces exRecords).headD exEmptyBoxTrace

def exKeyString : String :=
  weekday_map 3 ++ "-" ++ toString (9 : Nat)

def exC4Row : RawRow :=
  { startedAt := 57600, downloadedSpeed := 0, uploadedSpeed := 0 }

def exC5Row : RawRow :=
  { startedAt := 0, downloadedSpeed := 1000000, uploadedSpeed := 0 }

def exEmptyOutFS : OutFS := { dirs := [], pages := [] }

def exGraphTitle : String := "Downloaded Mbps and Uploaded Mbps by Time"

def past_csv_file_path : String := "data/sampling_20250319_1229.csv"

def past_html_file_path : String := "dist/past_graph.html"

def index_html_file_path : String := "dist/index.html"

def exPastArtifact : String := "dist/reports/past.html"

def exLatestArtifact : String := "dist/latest_graph.html"

def exExpectedRel : String := "reports/past.html"

def exPastTitle : String := "Past Graphs"

def exLatestTitle : String := "Latest Graphs"

def exHtmlWithHead : List Char :=
  "<html><head><t></head><body>x</body></html>".toList

def exHtmlNoHead : List Char :=
  "<html><body>ok</body></html>".toList

theorem calculate_medians_exRecords :
    calculate_medians exRecords =
      [{ weekday_label := weekday_map 1, hour := 5, weekday_index := 1
         downloadedMbps := 7, uploadedMbps := 6
         boxKey := weekday_map 1 ++ "-" ++ toString (5 : Nat) },
       { weekday_label := weekday_map 3, hour := 9, weekday_index := 3
         downloadedMbps := 4, uploadedMbps := 3
         boxKey := weekday_map 3 ++ "-" ++ toString (9 : Nat) }] := by
  decide

theorem mkBucket_weekday_index (rs : List Record) (k : GroupKey) :
    (mkBucket rs k).weekday_index = k.2.2 := rfl

theorem mkBucket_hour (rs : List Record) (k : GroupKey) :
    (mkBucket rs k).hour = k.2.1 := rfl

theorem mem_groupRows {rs : List Record} {k : GroupKey} {r : Record} :
    r ∈ groupRows rs k ↔ r ∈ rs ∧ groupKeyOf r = k := by
  simp [groupRows, List.mem_filter]

theorem groupRows_ne_nil {rs : List Record} {k : GroupKey}
    (h : k ∈ rs.map groupKeyOf) : groupRows rs k ≠ [] := by
  obtain ⟨r, hr, hk⟩ := List.mem_map.mp h
  intro hnil
  have hmem : r ∈ groupRows rs k := mem_groupRows.mpr ⟨hr, hk⟩
  rw [hnil] at hmem
  exact List.not_mem_nil r hmem

theorem mkBucket_boxKey {rs : List Record} {k : GroupKey}
    (h : k ∈ rs.map groupKeyOf) :
    (mkBucket rs k).boxKey = k.1 ++ "-" ++ toString k.2.1 := by
  cases hg : groupRows rs k with
  | nil => exact absurd hg (groupRows_ne_nil h)
  | cons r t =>
    have hr : r ∈ groupRows rs k := by
      rw [hg]; exact List.mem_cons_self r t
    have hkey : groupKeyOf r = k := (mem_groupRows.mp hr).2
    show ((groupRows rs k).map rowBoxKey).headD emptyString =
      k.1 ++ "-" ++ toString k.2.1
    rw [hg, ← hkey]
    rfl

theorem mem_calculate_medians {rs : List Record} {b : Bucket} :
    b ∈ calculate_medians rs ↔
      ∃ k, k ∈ rs.map groupKeyOf ∧ b = mkBucket rs k := by
  unfold calculate_medians
  rw [List.mem_map]
  constructor
  · rintro ⟨k, hk, rfl⟩
    have hkd : k ∈ (rs.map groupKeyOf).dedup :=
      ((List.perm_insertionSort bucketLE _).mem_iff).mp hk
    exact ⟨k, List.mem_dedup.mp hkd, rfl⟩
  · rintro ⟨k, hk, rfl⟩
    exact ⟨k, ((List.perm_insertionSort bucketLE _).mem_iff).mpr
      (List.mem_dedup.mpr hk), rfl⟩

theorem boxKey_mem_iff {rs : List Record} {s : String} :
    s ∈ (calculate_medians rs).map Bucket.boxKey ↔
      s ∈ (List.insertionSort recordLE rs).map rowBoxKey := by
  rw [List.mem_map, List.mem_map]
  constructor
  · rintro ⟨b, hb, rfl⟩
    obtain ⟨k, hk, rfl⟩ := mem_calculate_medians.mp hb
    obtain ⟨r, hr, hkr⟩ := List.mem_map.mp hk
    refine ⟨r, ((List.perm_insertionSort recordLE rs).mem_iff).mpr hr, ?_⟩
    rw [mkBucket_boxKey hk, ← hkr]
    rfl
  · rintro ⟨r, hr, rfl⟩
    have hrs : r ∈ rs := ((List.perm_insertionSort recordLE rs).mem_iff).mp hr
    have hk : groupKeyOf r ∈ rs.map groupKeyOf := List.mem_map.mpr ⟨r, hrs, rfl⟩
    refine ⟨mkBucket rs (groupKeyOf r),
      mem_calculate_medians.mpr ⟨groupKeyOf r, hk, rfl⟩, ?_⟩
    rw [mkBucket_boxKey hk]
    rfl

/-- C1: for every input record set, the key-string derivation of the
distribution (box) traces and of the trend-line (median) traces agree —
every aggregator bucket key string (`"{weekday_label}-{hour}"`, the
`箱ひげキー` column) appears verbatim among a distribution trace's category
labels, and every distribution-trace category label appears among the
aggregator's bucket key strings. -/
theorem claim_C1_category_key_alignment (rs : List Record) (t : BoxTrace)
    (ht : t ∈ add_box_plot_traces rs) (s : String) :
    s ∈ (calculate_medians rs).map Bucket.boxKey ↔ s ∈ t.x := by
  have hx : t.x = (List.insertionSort recordLE rs).map rowBoxKey := by
    rcases List.mem_cons.mp ht with h1 | h2
    · rw [h1]
    · rcases List.mem_cons.mp h2 with h3 | h4
      · rw [h3]
      · exact absurd h4 (List.not_mem_nil t)
  rw [hx]
  exact boxKey_mem_iff

theorem claim_C1_witness :
    exKeyString ∈ (calculate_medians exRecords).map Bucket.boxKey ↔
      exKeyString ∈ exDownloadBoxTrace.x :=
  claim_C1_category_key_alignment exRecords exDownloadBoxTrace (by decide)
    exKeyString

theorem key_label_of_wellFormed {rs : List Record} (hwf : wellFormed rs)
    {k : GroupKey} (h : k ∈ rs.map groupKeyOf) :
    k.1 = weekday_map k.2.2 := by
  obtain ⟨r, hr, rfl⟩ := List.mem_map.mp h
  exact hwf r hr

theorem key_eq_of_proj_eq {rs : List Record} (hwf : wellFormed rs)
    {k k' : GroupKey} (hk : k ∈ rs.map groupKeyOf)
    (hk' : k' ∈ rs.map groupKeyOf) (hidx : k.2.2 = k'.2.2)
    (hhr : k.2.1 = k'.2.1) : k = k' := by
  have h1 := key_label_of_wellFormed hwf hk
  have h2 := key_label_of_wellFormed hwf hk'
  obtain ⟨a, b, c⟩ := k
  obtain ⟨a', b', c'⟩ := k'
  simp only at h1 h2 hidx hhr
  subst hidx hhr
  rw [h1, h2]

theorem mem_sorted_keys {rs : List Record} {k : GroupKey}
    (h : k ∈ List.insertionSort bucketLE ((rs.map groupKeyOf).dedup)) :
    k ∈ rs.map groupKeyOf :=
  List.mem_dedup.mp (((List.perm_insertionSort bucketLE _).mem_iff).mp h)

/-- C2: for every non-empty well-formed input record set (the weekday-label
column is derived from the weekday-index column, as `load_and_prepare_data`
builds it), `calculate_medians` produces its buckets sorted strictly
ascending by the composite key `(weekday_index, hour)` — regardless of the
order of the input records, which the statement does not constrain. -/
theorem claim_C2_buckets_strictly_sorted (rs : List Record)
    (hwf : wellFormed rs) (hne : rs ≠ []) :
    List.Pairwise
      (fun a b : Bucket =>
        a.weekday_index < b.weekday_index ∨
          (a.weekday_index = b.weekday_index ∧ a.hour < b.hour))
      (calculate_medians rs) := by
  unfold calculate_medians
  rw [List.pairwise_map]
  have hsorted : List.Pairwise bucketLE
      (List.insertionSort bucketLE ((rs.map groupKeyOf).dedup)) :=
    List.sorted_insertionSort bucketLE _
  have hnd : (List.insertionSort bucketLE ((rs.map groupKeyOf).dedup)).Nodup :=
    ((List.perm_insertionSort bucketLE _).symm).nodup
      (List.nodup_dedup (rs.map groupKeyOf))
  refine List.Pairwise.imp_of_mem ?_ (hsorted.and hnd)
  intro k k' hk hk' hkk
  obtain ⟨hle, hne'⟩ := hkk
  have hkm := mem_sorted_keys hk
  have hkm' := mem_sorted_keys hk'
  simp only [mkBucket_weekday_index, mkBucket_hour]
  rcases hle with hlt | ⟨heq, hle2⟩
  · exact Or.inl hlt
  · rcases Nat.lt_or_ge k.2.1 k'.2.1 with hhlt | hhge
    · exact Or.inr ⟨heq, hhlt⟩
    · have hheq : k.2.1 = k'.2.1 := Nat.le_antisymm hle2 hhge
      exact absurd (key_eq_of_proj_eq hwf hkm hkm' heq hheq) hne'

theorem claim_C2_witness :
    List.Pairwise
      (fun a b : Bucket =>
        a.weekday_index < b.weekday_index ∨
          (a.weekday_index = b.weekday_index ∧ a.hour < b.hour))
      (calculate_medians exRecords) :=
  claim_C2_buckets_strictly_sorted exRecords
    (by unfold wellFormed; decide) (by decide)

theorem filter_key_eq_groupRows {rs : List Record} (hwf : wellFormed rs)
    {k : GroupKey} (hk : k ∈ rs.map groupKeyOf) :
    (rs.filter fun r => decide (r.weekday_index = k.2.2 ∧ r.hour = k.2.1)) =
      groupRows rs k := by
  have hk1 := key_label_of_wellFormed hwf hk
  apply List.filter_congr
  intro r hr
  rw [decide_eq_decide]
  constructor
  · rintro ⟨h1, h2⟩
    have hlab := hwf r hr
    obtain ⟨a, b, c⟩ := k
    simp only at hk1 h1 h2
    subst h1 h2
    simp only [groupKeyOf, hlab, hk1]
  · intro hkr
    rw [← hkr]
    exact ⟨rfl, rfl⟩

theorem bucketDownloadRates_mkBucket {rs : List Record} (hwf : wellFormed rs)
    {k : GroupKey} (hk : k ∈ rs.map groupKeyOf) :
    bucketDownloadRates rs (mkBucket rs k) =
      (groupRows rs k).map Record.downloadedMbps := by
  unfold bucketDownloadRates
  rw [mkBucket_weekday_index, mkBucket_hour, filter_key_eq_groupRows hwf hk]

theorem bucketUploadRates_mkBucket {rs : List Record} (hwf : wellFormed rs)
    {k : GroupKey} (hk : k ∈ rs.map groupKeyOf) :
    bucketUploadRates rs (mkBucket rs k) =
      (groupRows rs k).map Record.uploadedMbps := by
  unfold bucketUploadRates
  rw [mkBucket_weekday_index, mkBucket_hour, filter_key_eq_groupRows hwf hk]

theorem median_bounds {l : List ℚ} (hne : l ≠ []) {lo hi : ℚ}
    (hb : ∀ q ∈ l, lo ≤ q ∧ q ≤ hi) : lo ≤ median l ∧ median l ≤ hi := by
  have hperm := List.perm_insertionSort (fun a b : ℚ => a ≤ b) l
  have hlen : (sortedRates l).length = l.length := hperm.length_eq
  have hlpos : 0 < l.length := List.length_pos.mpr hne
  have hmem : ∀ x ∈ sortedRates l, lo ≤ x ∧ x ≤ hi := fun x hx =>
    hb x (hperm.mem_iff.mp hx)
  by_cases hodd : (sortedRates l).length % 2 = 1
  · rw [median, if_pos hodd]
    have hlt : (sortedRates l).length / 2 < (sortedRates l).length := by omega
    rw [List.getD_eq_getElem _ _ hlt]
    exact hmem _ (List.getElem_mem hlt)
  · rw [median, if_neg hodd]
    have hlt1 : (sortedRates l).length / 2 - 1 < (sortedRates l).length := by
      omega
    have hlt2 : (sortedRates l).length / 2 < (sortedRates l).length := by omega
    rw [List.getD_eq_getElem _ _ hlt1, List.getD_eq_getElem _ _ hlt2]
    have b1 := hmem _ (List.getElem_mem hlt1)
    have b2 := hmem _ (List.getElem_mem hlt2)
    constructor
    · linarith [b1.1, b2.1]
    · linarith [b1.2, b2.2]

theorem calculate_medians_keys_nodup {rs : List Record} (hwf : wellFormed rs) :
    ((calculate_medians rs).map fun b => (b.weekday_index, b.hour)).Nodup := by
  unfold calculate_medians
  rw [List.map_map]
  have hnd : (List.insertionSort bucketLE ((rs.map groupKeyOf).dedup)).Nodup :=
    ((List.perm_insertionSort bucketLE _).symm).nodup
      (List.nodup_dedup (rs.map groupKeyOf))
  refine List.Nodup.map_on ?_ hnd
  intro x hx y hy hxy
  simp only [Function.comp, mkBucket_weekday_index, mkBucket_hour,
    Prod.mk.injEq] at hxy
  exact key_eq_of_proj_eq hwf (mem_sorted_keys hx) (mem_sorted_keys hy)
    hxy.1 hxy.2

theorem calculate_medians_keys_mem {rs : List Record} (w h : Nat) :
    ((w, h) ∈ (calculate_medians rs).map fun b => (b.weekday_index, b.hour)) ↔
      ∃ r ∈ rs, r.weekday_index = w ∧ r.hour = h := by
  rw [List.mem_map]
  constructor
  · rintro ⟨b, hb, hproj⟩
    obtain ⟨k, hk, rfl⟩ := mem_calculate_medians.mp hb
    obtain ⟨r, hr, rfl⟩ := List.mem_map.mp hk
    rw [mkBucket_weekday_index, mkBucket_hour] at hproj
    simp only [Prod.mk.injEq] at hproj
    exact ⟨r, hr, hproj.1, hproj.2⟩
  · rintro ⟨r, hr, hw, hh⟩
    have hk : groupKeyOf r ∈ rs.map groupKeyOf := List.mem_map.mpr ⟨r, hr, rfl⟩
    refine ⟨mkBucket rs (groupKeyOf r),
      mem_calculate_medians.mpr ⟨groupKeyOf r, hk, rfl⟩, ?_⟩
    rw [mkBucket_weekday_index, mkBucket_hour]
    simp only [Prod.mk.injEq]
    exact ⟨hw, hh⟩

/-- C3: for every non-empty well-formed input record set, aggregation
produces exactly one bucket per distinct `(weekday_index, hour)` combination
present in the input (a duplicate-free key list whose members are exactly
the combinations occurring in some record), each bucket's median
download/upload rate is `median` — the standard statistical median, sorting
the values and averaging the two middle ones for even counts — of its
constituent records' rates, and that median lies within every lower and
upper bound of those constituent rates (in particular within their minimum
and maximum). -/
theorem claim_C3_one_bucket_per_key_median_bounds (rs : List Record)
    (hwf : wellFormed rs) (hne : rs ≠ []) :
    ((calculate_medians rs).map fun b => (b.weekday_index, b.hour)).Nodup ∧
    (∀ w h : Nat,
      ((w, h) ∈ (calculate_medians rs).map fun b => (b.weekday_index, b.hour))
        ↔ ∃ r ∈ rs, r.weekday_index = w ∧ r.hour = h) ∧
    (∀ b ∈ calculate_medians rs,
      b.downloadedMbps = median (bucketDownloadRates rs b) ∧
      b.uploadedMbps = median (bucketUploadRates rs b)) ∧
    (∀ b ∈ calculate_medians rs, ∀ lo hi : ℚ,
      ((∀ q ∈ bucketDownloadRates rs b, lo ≤ q ∧ q ≤ hi) →
        lo ≤ b.downloadedMbps ∧ b.downloadedMbps ≤ hi) ∧
      ((∀ q ∈ bucketUploadRates rs b, lo ≤ q ∧ q ≤ hi) →
        lo ≤ b.uploadedMbps ∧ b.uploadedMbps ≤ hi)) := by
  refine ⟨calculate_medians_keys_nodup hwf,
    fun w h => calculate_medians_keys_mem w h, ?_, ?_⟩
  · intro b hb
    obtain ⟨k, hk, rfl⟩ := mem_calculate_medians.mp hb
    rw [bucketDownloadRates_mkBucket hwf hk, bucketUploadRates_mkBucket hwf hk]
    exact ⟨rfl, rfl⟩
  · intro b hb lo hi
    obtain ⟨k, hk, rfl⟩ := mem_calculate_medians.mp hb
    have hgne : groupRows rs k ≠ [] := groupRows_ne_nil hk
    constructor
    · intro hq
      rw [bucketDownloadRates_mkBucket hwf hk] at hq
      have hmne : (groupRows rs k).map Record.downloadedMbps ≠ [] := by
        intro hmap
        exact hgne (List.map_eq_nil_iff.mp hmap)
      exact median_bounds hmne hq
    · intro hq
      rw [bucketUploadRates_mkBucket hwf hk] at hq
      have hmne : (groupRows rs k).map Record.uploadedMbps ≠ [] := by
        intro hmap
        exact hgne (List.map_eq_nil_iff.mp hmap)
      exact median_bounds hmne hq

theorem claim_C3_witness :
    ((calculate_medians exRecords).map
      fun b => (b.weekday_index, b.hour)).Nodup ∧
    ((3, 9) ∈ (calculate_medians exRecords).map
      fun b => (b.weekday_index, b.hour)) :=
  ⟨(claim_C3_one_bucket_per_key_median_bounds exRecords
      (by unfold wellFormed; decide) (by decide)).1,
   (claim_C3_one_bucket_per_key_median_bounds exRecords
      (by unfold wellFormed; decide) (by decide)).2.1 3 9
      |>.mpr (by decide)⟩

/-- C4: every prepared row derives its weekday index (0–6, Monday = 0) and
hour (0–23) from the timestamp converted to JST, not from the UTC
timestamp; whenever the conversion moves the instant to a different local
calendar day, the recorded weekday is the local day's weekday and differs
from UTC's weekday. -/
theorem claim_C4_weekday_from_local_time (row : RawRow) :
    (prepareRow row).weekday_index =
      dayOfWeek (row.startedAt + jstUtcOffsetSeconds) ∧
    (prepareRow row).hour = hourOfDay (row.startedAt + jstUtcOffsetSeconds) ∧
    (prepareRow row).weekday_index ≤ 6 ∧
    (prepareRow row).hour ≤ 23 ∧
    (dayNumber (row.startedAt + jstUtcOffsetSeconds) ≠ dayNumber row.startedAt →
      (prepareRow row).weekday_index ≠ dayOfWeek row.startedAt) := by
  refine ⟨rfl, rfl, ?_, ?_, ?_⟩
  · show dayOfWeek (row.startedAt + jstUtcOffsetSeconds) ≤ 6
    unfold dayOfWeek
    omega
  · show hourOfDay (row.startedAt + jstUtcOffsetSeconds) ≤ 23
    unfold hourOfDay secondsPerDay
    omega
  · intro hday
    show dayOfWeek (row.startedAt + jstUtcOffsetSeconds) ≠
      dayOfWeek row.startedAt
    unfold dayOfWeek dayNumber secondsPerDay jstUtcOffsetSeconds at *
    omega

theorem claim_C4_witness :
    (prepareRow exC4Row).weekday_index =
      dayOfWeek (exC4Row.startedAt + jstUtcOffsetSeconds) ∧
    (prepareRow exC4Row).weekday_index ≠ dayOfWeek exC4Row.startedAt :=
  ⟨(claim_C4_weekday_from_local_time exC4Row).1,
   (claim_C4_weekday_from_local_time exC4Row).2.2.2.2 (by decide)⟩

/-- C5: every prepared row's human-scaled rates are the raw byte rates
divided by 1,000,000 (decimal mega — the source divides by 1000 twice); a
raw rate of exactly 1,000,000 maps to 1 and a raw rate of 0 maps to 0. -/
theorem claim_C5_unit_conversion (row : RawRow) :
    (prepareRow row).downloadedMbps = row.downloadedSpeed / 1000000 ∧
    (prepareRow row).uploadedMbps = row.uploadedSpeed / 1000000 ∧
    (row.downloadedSpeed = 1000000 → (prepareRow row).downloadedMbps = 1) ∧
    (row.uploadedSpeed = 1000000 → (prepareRow row).uploadedMbps = 1) ∧
    (row.downloadedSpeed = 0 → (prepareRow row).downloadedMbps = 0) ∧
    (row.uploadedSpeed = 0 → (prepareRow row).uploadedMbps = 0) := by
  have hdl : (prepareRow row).downloadedMbps = row.downloadedSpeed / 1000000 := by
    show row.downloadedSpeed / 1000 / 1000 = row.downloadedSpeed / 1000000
    rw [div_div]
    norm_num
  have hul : (prepareRow row).uploadedMbps = row.uploadedSpeed / 1000000 := by
    show row.uploadedSpeed / 1000 / 1000 = row.uploadedSpeed / 1000000
    rw [div_div]
    norm_num
  refine ⟨hdl, hul, ?_, ?_, ?_, ?_⟩
  · intro h1
    rw [hdl, h1]
    norm_num
  · intro h1
    rw [hul, h1]
    norm_num
  · intro h1
    rw [hdl, h1]
    norm_num
  · intro h1
    rw [hul, h1]
    norm_num

theorem claim_C5_witness :
    (prepareRow exC5Row).downloadedMbps = 1 ∧
    (prepareRow exC5Row).uploadedMbps = 0 :=
  ⟨(claim_C5_unit_conversion exC5Row).2.2.1 rfl,
   (claim_C5_unit_conversion exC5Row).2.2.2.2.2 rfl⟩

/-- C6 counterexample: on zero records the aggregation does not fail — the
`groupby`/`agg`/`sort_values` chain over an empty frame yields an empty
frame, so `calculate_medians` returns the empty (default) bucket sequence.
This refutes the claim that aggregation of zero records fails with
`EmptyInputError`: the source has no such failure path. -/
theorem claim_C6_counterexample : calculate_medians [] = [] := by decide

/-- C6 (amended): the aggregation operation, when given zero records as
input, returns an empty bucket sequence (it does not raise an error). -/
theorem claim_C6_empty_input (rs : List Record) (h : rs = []) :
    calculate_medians rs = [] := by
  rw [h]
  rfl

theorem claim_C6_witness : calculate_medians ([] : List Record) = [] :=
  claim_C6_empty_input [] rfl

/-- C7: invoking the pipeline on a CSV path whose source file does not
exist fails with the missing-input error, and no artifact is produced: the
result carries no output file system at all, so nothing is written and no
directory is created before the failure. -/
theorem claim_C7_missing_input (fs : FileSystem) (out : OutFS)
    (csv_file_path html_file_path title : String)
    (h : lookupFile fs csv_file_path = none) :
    generate_graph_html fs out csv_file_path html_file_path title =
      Except.error PipelineError.missingInputError ∧
    ∀ out' : OutFS,
      generate_graph_html fs out csv_file_path html_file_path title ≠
        Except.ok out' := by
  have hload : load_and_prepare_data fs csv_file_path =
      Except.error PipelineError.missingInputError := by
    unfold load_and_prepare_data
    rw [h]
  constructor
  · unfold generate_graph_html
    rw [hload]
  · intro out' hok
    unfold generate_graph_html at hok
    rw [hload] at hok
    exact Except.noConfusion hok

theorem claim_C7_witness :
    generate_graph_html [] exEmptyOutFS past_csv_file_path
      past_html_file_path exGraphTitle =
      Except.error PipelineError.missingInputError :=
  (claim_C7_missing_input [] exEmptyOutFS past_csv_file_path
    past_html_file_path exGraphTitle rfl).1

theorem resolvePath_nil (b : List String) : resolvePath b [] = b := rfl

theorem resolvePath_cons_dotdot (b : List String) (rel : List String) :
    resolvePath b (dotdot :: rel) = resolvePath b.dropLast rel := by
  unfold resolvePath
  rw [List.foldl_cons, if_pos rfl]

theorem resolvePath_cons_curdir (b : List String) (rel : List String) :
    resolvePath b (curdir :: rel) = resolvePath b rel := by
  unfold resolvePath
  rw [List.foldl_cons, if_neg (by decide), if_pos rfl]

theorem resolvePath_cons_of_ne {c : String} (hc1 : c ≠ dotdot)
    (hc2 : c ≠ curdir) (b : List String) (rel : List String) :
    resolvePath b (c :: rel) = resolvePath (b ++ [c]) rel := by
  unfold resolvePath
  rw [List.foldl_cons, if_neg hc1, if_neg hc2]

theorem resolvePath_append (b : List String) (xs ys : List String) :
    resolvePath b (xs ++ ys) = resolvePath (resolvePath b xs) ys := by
  unfold resolvePath
  rw [List.foldl_append]

theorem resolvePath_replicate_dotdot :
    ∀ (k : Nat) (b : List String),
      resolvePath b (List.replicate k dotdot) = b.take (b.length - k)
  | 0, b => by
    rw [List.replicate_zero, resolvePath_nil, Nat.sub_zero, List.take_length]
  | k + 1, b => by
    rw [List.replicate_succ, resolvePath_cons_dotdot,
      resolvePath_replicate_dotdot k b.dropLast, List.dropLast_eq_take,
      List.take_take, List.length_take]
    congr 1
    omega

theorem resolvePath_no_special :
    ∀ (rel : List String) (b : List String),
      (∀ c ∈ rel, c ≠ dotdot ∧ c ≠ curdir) → resolvePath b rel = b ++ rel
  | [], b, _ => by rw [resolvePath_nil, List.append_nil]
  | c :: rest, b, h => by
    have hc := h c (List.mem_cons_self c rest)
    rw [resolvePath_cons_of_ne hc.1 hc.2,
      resolvePath_no_special rest (b ++ [c])
        (fun d hd => h d (List.mem_cons_of_mem c hd))]
    simp

theorem commonPrefixLen_le_left :
    ∀ (p s : List String), commonPrefixLen p s ≤ p.length
  | [], s => by simp [commonPrefixLen]
  | a :: as, [] => by simp [commonPrefixLen]
  | a :: as, b :: bs => by
    by_cases hab : a = b
    · rw [commonPrefixLen, if_pos hab]
      exact Nat.succ_le_succ (commonPrefixLen_le_left as bs)
    · rw [commonPrefixLen, if_neg hab]
      exact Nat.zero_le _

theorem commonPrefixLen_le_right :
    ∀ (p s : List String), commonPrefixLen p s ≤ s.length
  | [], s => by simp [commonPrefixLen]
  | a :: as, [] => by simp [commonPrefixLen]
  | a :: as, b :: bs => by
    by_cases hab : a = b
    · rw [commonPrefixLen, if_pos hab]
      exact Nat.succ_le_succ (commonPrefixLen_le_right as bs)
    · rw [commonPrefixLen, if_neg hab]
      exact Nat.zero_le _

theorem take_commonPrefixLen :
    ∀ (p s : List String),
      p.take (commonPrefixLen p s) = s.take (commonPrefixLen p s)
  | [], s => by simp [commonPrefixLen]
  | a :: as, [] => by simp [commonPrefixLen]
  | a :: as, b :: bs => by
    by_cases hab : a = b
    · rw [commonPrefixLen, if_pos hab, List.take_succ_cons,
        List.take_succ_cons, hab, take_commonPrefixLen as bs]
    · rw [commonPrefixLen, if_neg hab]
      rfl

theorem relpathC_resolve (a b : List String) (h1 : dotdot ∉ a)
    (h2 : curdir ∉ a) : resolvePath b (relpathC a b) = a := by
  unfold relpathC
  by_cases hrel :
      (List.replicate (b.length - commonPrefixLen a b) dotdot ++
        a.drop (commonPrefixLen a b)).isEmpty = true
  · rw [if_pos hrel]
    rw [List.isEmpty_iff, List.append_eq_nil] at hrel
    have hcb : b.length - commonPrefixLen a b = 0 := by
      have hr1 := hrel.1
      rw [List.replicate_eq_nil_iff] at hr1
      exact hr1
    have hcb' : commonPrefixLen a b = b.length :=
      Nat.le_antisymm (commonPrefixLen_le_right a b) (by omega)
    have hca : commonPrefixLen a b = a.length := by
      have hd := hrel.2
      rw [List.drop_eq_nil_iff] at hd
      exact Nat.le_antisymm (commonPrefixLen_le_left a b) hd
    have hab : a = b := by
      have ht := take_commonPrefixLen a b
      rw [hca, List.take_length] at ht
      rw [ht, ← hca, hcb', List.take_length]
    rw [resolvePath_cons_curdir, resolvePath_nil, hab]
  · rw [if_neg hrel, resolvePath_append,
      resolvePath_replicate_dotdot (b.length - commonPrefixLen a b) b]
    have hle : commonPrefixLen a b ≤ b.length := commonPrefixLen_le_right a b
    have hbc : b.length - (b.length - commonPrefixLen a b) =
        commonPrefixLen a b := by omega
    rw [hbc, ← take_commonPrefixLen a b]
    rw [resolvePath_no_special (a.drop (commonPrefixLen a b))
      (a.take (commonPrefixLen a b))
      (fun c hc => ⟨fun hd => h1 (List.drop_subset _ a (hd ▸ hc)),
        fun hd => h2 (List.drop_subset _ a (hd ▸ hc))⟩)]
    exact List.take_append_drop _ a

/-- C8: the index composer records each artifact's path relative to the
index document's own directory (`os.path.relpath` against
`os.path.dirname` of the index path) — resolving the recorded relative
path against that directory recovers the artifact path exactly, so the
reference is not absolute and not relative to the working directory; in
particular an index at `dist/index.html` referencing an artifact at
`dist/reports/past.html` records `reports/past.html`. -/
theorem claim_C8_relative_index_paths :
    (∀ html_file_path past_html_path latest_html_path pt lt : String,
      (generate_index_html html_file_path past_html_path latest_html_path
          pt lt).pastHref = relpath past_html_path (dirname html_file_path) ∧
      (generate_index_html html_file_path past_html_path latest_html_path
          pt lt).latestHref =
        relpath latest_html_path (dirname html_file_path)) ∧
    (∀ idx artifact : List String, dotdot ∉ artifact → curdir ∉ artifact →
      resolvePath (dirnameC idx) (relpathC artifact (dirnameC idx)) =
        artifact) ∧
    (generate_index_html index_html_file_path exPastArtifact exLatestArtifact
        exPastTitle exLatestTitle).pastHref = exExpectedRel := by
  refine ⟨fun _ _ _ _ _ => ⟨rfl, rfl⟩, ?_, by decide⟩
  intro idx artifact h1 h2
  exact relpathC_resolve artifact (dirnameC idx) h1 h2

theorem claim_C8_witness :
    resolvePath (dirnameC (splitPath index_html_file_path))
        (relpathC (splitPath exPastArtifact)
          (dirnameC (splitPath index_html_file_path))) =
      splitPath exPastArtifact :=
  claim_C8_relative_index_paths.2.1 (splitPath index_html_file_path)
    (splitPath exPastArtifact) (by decide) (by decide)

theorem append_drop_of_isPrefixOf :
    ∀ (p s : List Char), p.isPrefixOf s = true → p ++ s.drop p.length = s
  | [], s, _ => by simp
  | a :: p', [], h => by simp [List.isPrefixOf] at h
  | a :: p', b :: s', h => by
    rw [List.isPrefixOf_cons₂] at h
    obtain ⟨hab, hp⟩ := Bool.and_eq_true_iff.mp h
    have hab' : a = b := by
      exact beq_iff_eq.mp hab
    simp only [List.length_cons, List.drop_succ_cons, List.cons_append,
      hab']
    rw [append_drop_of_isPrefixOf p' s' hp]

theorem findFirstIdx_some_prefix :
    ∀ (s : List Char) (pat : List Char) (i : Nat),
      findFirstIdx s pat = some i → pat.isPrefixOf (s.drop i) = true
  | [], pat, i, h => by
    unfold findFirstIdx at h
    by_cases hp : pat.isEmpty = true
    · rw [if_pos hp] at h
      obtain rfl : (0 : Nat) = i := Option.some.inj h
      rw [List.isEmpty_iff] at hp
      rw [hp]
      rfl
    · rw [if_neg hp] at h
      exact Option.noConfusion h
  | c :: rest, pat, i, h => by
    unfold findFirstIdx at h
    by_cases hp : pat.isPrefixOf (c :: rest) = true
    · rw [if_pos hp] at h
      obtain rfl : (0 : Nat) = i := Option.some.inj h
      exact hp
    · rw [if_neg hp] at h
      obtain ⟨i', hi', rfl⟩ := Option.map_eq_some'.mp h
      rw [List.drop_succ_cons]
      exact findFirstIdx_some_prefix rest pat i' hi'

theorem findFirstIdx_some_min :
    ∀ (s : List Char) (pat : List Char) (i : Nat),
      findFirstIdx s pat = some i →
        ∀ j, j < i → pat.isPrefixOf (s.drop j) = false
  | [], pat, i, h => by
    unfold findFirstIdx at h
    by_cases hp : pat.isEmpty = true
    · rw [if_pos hp] at h
      obtain rfl : (0 : Nat) = i := Option.some.inj h
      intro j hj
      omega
    · rw [if_neg hp] at h
      exact Option.noConfusion h
  | c :: rest, pat, i, h => by
    unfold findFirstIdx at h
    by_cases hp : pat.isPrefixOf (c :: rest) = true
    · rw [if_pos hp] at h
      obtain rfl : (0 : Nat) = i := Option.some.inj h
      intro j hj
      omega
    · rw [if_neg hp] at h
      obtain ⟨i', hi', rfl⟩ := Option.map_eq_some'.mp h
      intro j hj
      cases j with
      | zero =>
        rw [List.drop_zero]
        exact Bool.not_eq_true _ ▸ eq_false_of_ne_true hp
      | succ j' =>
        rw [List.drop_succ_cons]
        exact findFirstIdx_some_min rest pat i' hi' j' (by omega)

theorem replaceFirst_eq_insert :
    ∀ (s : List Char) (pat : List Char) (meta : List Char) (i : Nat),
      pat ≠ [] → findFirstIdx s pat = some i →
        replaceFirst s pat (meta ++ pat) = s.take i ++ meta ++ s.drop i
  | [], pat, meta, i, hpat, h => by
    unfold findFirstIdx at h
    rw [if_neg (fun hp => hpat (List.isEmpty_iff.mp hp))] at h
    exact Option.noConfusion h
  | c :: rest, pat, meta, i, hpat, h => by
    unfold findFirstIdx at h
    by_cases hp : pat.isPrefixOf (c :: rest) = true
    · rw [if_pos hp] at h
      obtain rfl : (0 : Nat) = i := Option.some.inj h
      unfold replaceFirst
      rw [if_pos hp, List.take_zero, List.drop_zero, List.nil_append,
        List.append_assoc, append_drop_of_isPrefixOf pat (c :: rest) hp]
    · rw [if_neg hp] at h
      obtain ⟨i', hi', rfl⟩ := Option.map_eq_some'.mp h
      unfold replaceFirst
      rw [if_neg hp,
        replaceFirst_eq_insert rest pat meta i' hpat hi',
        List.take_succ_cons, List.drop_succ_cons]
      simp

theorem replaceFirst_of_no_match :
    ∀ (s : List Char) (pat repl : List Char),
      findFirstIdx s pat = none → replaceFirst s pat repl = s
  | [], pat, repl, _ => rfl
  | c :: rest, pat, repl, h => by
    unfold findFirstIdx at h
    by_cases hp : pat.isPrefixOf (c :: rest) = true
    · rw [if_pos hp] at h
      exact Option.noConfusion h
    · rw [if_neg hp] at h
      unfold replaceFirst
      rw [if_neg hp, replaceFirst_of_no_match rest pat repl
        (Option.map_eq_none'.mp h)]

/-- C9: for every artifact document whose text contains the closing
head-section marker `'</head>'` (first occurrence at index `i`), the
post-processing step inserts the locale-declaration markup exactly at that
first occurrence — the result is the original prefix, then the metadata,
then the original text from the marker on — the marker does begin at `i`,
and no earlier position carries an occurrence, so the insertion happens at
the first occurrence only and the rest of the document is unchanged. -/
theorem claim_C9_metadata_inserted_before_head (html_content : List Char)
    (i : Nat) (h : findFirstIdx html_content headMarker = some i) :
    add_japanese_metadata html_content =
      html_content.take i ++ new_meta_tags ++ html_content.drop i ∧
    headMarker.isPrefixOf (html_content.drop i) = true ∧
    ∀ j, j < i → headMarker.isPrefixOf (html_content.drop j) = false :=
  ⟨replaceFirst_eq_insert html_content headMarker new_meta_tags i
      (by decide) h,
   findFirstIdx_some_prefix html_content headMarker i h,
   findFirstIdx_some_min html_content headMarker i h⟩

theorem claim_C9_witness :
    add_japanese_metadata exHtmlWithHead =
      exHtmlWithHead.take 15 ++ new_meta_tags ++ exHtmlWithHead.drop 15 :=
  (claim_C9_metadata_inserted_before_head exHtmlWithHead 15 (by decide)).1

/-- C10: if the artifact document contains no `'</head>'` marker, the
post-processing step leaves the text entirely unchanged — it neither
appends the markup elsewhere nor raises an error, so the write-back is
byte-for-byte the content that was read. -/
theorem claim_C10_no_marker_unchanged (html_content : List Char)
    (h : findFirstIdx html_content headMarker = none) :
    add_japanese_metadata html_content = html_content :=
  replaceFirst_of_no_match html_content headMarker
    (new_meta_tags ++ headMarker) h

theorem claim_C10_witness : add_japanese_metadata exHtmlNoHead = exHtmlNoHead :=
  claim_C10_no_marker_unchanged exHtmlNoHead (by decide)
